import Mathlib

/-!
Verification of the vanilla Solar-System integration driver (`run.py`).

The driver script wires the REBOUND N-body library: it parses a run index
from the command line, derives a checkpoint filename, resumes from an
existing SimulationArchive when possible, otherwise builds a fresh
simulation (initial conditions from `ss.bin` or a Horizons fetch),
perturbs Mercury's x coordinate by an index-dependent offset, configures
the WHCKL integrator, and integrates with Escape/Encounter stop events.

The shallow embedding below models the script's own control flow and data
directly from `run.py`.  The parts of the system that live inside the
REBOUND/REBOUNDx libraries (the symplectic stepper, the archive write
trigger, the event monitor's comparison) are not in the repository's
source tree; where a claim depends on them they are modelled from the
specification, and each such definition says so in its doc comment.
Scalars are exact rationals (the spec's bit-identity claims are about
exact state equality); the one irrational quantity, the time step
`dt = sqrt(65)*2*pi/365.25`, is treated symbolically via `DtVal` in the
executable state and as a real number in the numerical theorems.
-/

/-- One body of the simulation: mass, position and velocity components
(`sim.particles[i]` in `run.py`).  Exact rational scalars. -/
structure Particle where
  m : ℚ
  x : ℚ
  y : ℚ
  z : ℚ
  vx : ℚ
  vy : ℚ
  vz : ℚ
  deriving DecidableEq, Repr

/-- Symbolic value of the fixed time step `sim.dt`.  The program only ever
uses two values: REBOUND's default, and the value set at `run.py` line 53,
`np.sqrt(65)*twopi/365.25`, which is irrational and hence kept symbolic. -/
inductive DtVal where
  | unset
  | whckldt
  deriving DecidableEq, Repr

/-- The simulation state the script manipulates: the particle list plus the
integrator and archiver configuration fields that `run.py` sets (lines
51-64) and that the binary snapshot restores on resume.  Simulation time is
`stepsDone * dt` plus the initial time, so it is represented by the integer
step counter. -/
structure SimState where
  particles : List Particle
  stepsDone : ℕ
  integrator : String
  dt : DtVal
  safe_mode : ℕ
  keep_unsynchronized : Bool
  exit_min_distance : ℚ
  exit_max_distance : ℚ
  archiveCadence : ℕ
  archiveFilename : Option String
  deriving DecidableEq, Repr

/-- Modify the element at index `i` of a list, leaving the rest unchanged
(used for `sim.particles[1].x += dx`, `run.py` line 45). -/
def modifyIdx (f : α → α) : ℕ → List α → List α
  | _, [] => []
  | 0, a :: as => f a :: as
  | i + 1, a :: as => a :: modifyIdx f i as

/-- The nine bodies added on a fresh Horizons fetch (`run.py` line 14). -/
def planetnames : List String :=
  ["Sun", "Mercury", "Venus", "Earth", "Mars", "Jupiter", "Saturn", "Uranus", "Neptune"]

/-- Number of millimeters in one astronomical unit (`run.py` line 43). -/
def au : ℚ := 149597870700000

/-- The ensemble offset applied to Mercury's x coordinate, in AU:
`dx = (0.38 * n)/au` (`run.py` line 44), i.e. 0.38 millimeters per unit of
the run index. -/
def dx (n : ℤ) : ℚ := (38 / 100 * (n : ℚ)) / au

/-- The ensemble perturbation (`run.py` lines 42-45): add `dx n` to the x
coordinate of the body at index 1 (Mercury); everything else untouched.
Faithful on the program's domain, states where body index 1 exists: on a
state with fewer than two bodies `run.py` would raise IndexError at line
45, while `modifyIdx` leaves the list unchanged, so theorems that depend
on the fresh-start path constrain the base state to hold at least two
bodies. -/
def perturb (s : SimState) (n : ℤ) : SimState :=
  { s with particles := modifyIdx (fun p => { p with x := p.x + dx n }) 1 s.particles }

/-- Total mass of a particle list. -/
def totalMass (ps : List Particle) : ℚ := (ps.map (·.m)).sum

/-- Mass-weighted average of a component, used for the center-of-mass shift.
Rational division by zero yields zero, so a massless system is unshifted. -/
def comOf (f : Particle → ℚ) (ps : List Particle) : ℚ :=
  (ps.map (fun p => p.m * f p)).sum / totalMass ps

/-- Shift to the center-of-mass frame (`sim.move_to_com()`, `run.py`
line 48): subtract the mass-weighted mean position and velocity from every
body.  Modelled from the spec's description of the REBOUND call. -/
def move_to_com (s : SimState) : SimState :=
  { s with particles :=
      s.particles.map (fun p =>
        { p with
          x := p.x - comOf (·.x) s.particles
          y := p.y - comOf (·.y) s.particles
          z := p.z - comOf (·.z) s.particles
          vx := p.vx - comOf (·.vx) s.particles
          vy := p.vy - comOf (·.vy) s.particles
          vz := p.vz - comOf (·.vz) s.particles }) }

/-- Symbolic value of the fixed time step, continued: the two archive-arming
calls compute `int(1e4*twopi/sim.dt)` (`run.py` lines 30 and 64).  For the
program's dt (`sqrt(65)*twopi/365.25` from line 53) the exact value of that
expression is 453036, proved below in `cadence_whckldt_eq_floor`; the
`unset` branch corresponds to REBOUND's default `dt = 0.001` and is never
armed by the script. -/
def cadenceOf : DtVal → ℕ
  | DtVal.unset => 62831853
  | DtVal.whckldt => 453036

/-- The cadence the program actually arms, `int(1e4*twopi/dt)` for the dt
set at `run.py` line 53. -/
abbrev archiveStep : ℕ := cadenceOf DtVal.whckldt

/-- The checkpoint filename derived from the run index (`run.py` line 24):
`'solarsystem_'+("m" if n<0 else "p")+str(abs(n))+".bin"`. -/
def filename (n : ℤ) : String :=
  "solarsystem_" ++ (if n < 0 then "m" else "p") ++ toString n.natAbs ++ ".bin"

/-- Value of a decimal digit character, `none` for any other character. -/
def digit? (c : Char) : Option ℕ :=
  if 48 ≤ c.toNat ∧ c.toNat ≤ 57 then some (c.toNat - 48) else none

/-- Accumulate the value of a decimal digit string. -/
def pyDigitsAux : ℕ → List Char → Option ℕ
  | acc, [] => some acc
  | acc, c :: cs =>
    match digit? c with
    | some d => pyDigitsAux (acc * 10 + d) cs
    | none => none

/-- Models Python `int(argv[1])` at `run.py` line 19: an optional sign
followed by one or more decimal digits parses to an integer, anything else
raises (`none`). -/
def pyInt? (s : String) : Option ℤ :=
  match s.data with
  | [] => none
  | '-' :: cs =>
    match cs with
    | [] => none
    | _ => (pyDigitsAux 0 cs).map (fun n => -(n : ℤ))
  | '+' :: cs =>
    match cs with
    | [] => none
    | _ => (pyDigitsAux 0 cs).map (fun n => (n : ℤ))
  | cs => (pyDigitsAux 0 cs).map (fun n => (n : ℤ))

/-- A freshly constructed `rebound.Simulation()` holding the given bodies
(REBOUND defaults: IAS15 integrator, dt unset, safe mode on, no exit
distances, no archive armed). -/
def defaultSim (ps : List Particle) : SimState :=
  { particles := ps, stepsDone := 0, integrator := "ias15", dt := DtVal.unset,
    safe_mode := 1, keep_unsynchronized := false,
    exit_min_distance := 0, exit_max_distance := 0,
    archiveCadence := 0, archiveFilename := none }

/-- Contents of one file of the working directory: a REBOUND binary is a
sequence of state snapshots (a plain save is the one-snapshot case); a
`corruptTail` file ends in a truncated or garbled write after some readable
snapshots, so loading it raises. -/
inductive FileContent where
  | sim (snaps : List SimState)
  | corruptTail (validSnaps : List SimState)
  deriving DecidableEq, Repr

/-- The working directory, as an association list from file names to
contents. -/
abbrev Filesystem := List (String × FileContent)

/-- Look a file up by name. -/
def fsLookup (fs : Filesystem) (name : String) : Option FileContent :=
  (fs.find? (fun kv => kv.1 == name)).map Prod.snd

/-- Replace or create a file. -/
def fsSet : Filesystem → String → FileContent → Filesystem
  | [], name, c => [(name, c)]
  | kv :: rest, name, c =>
    if kv.1 == name then (name, c) :: rest else kv :: fsSet rest name c

/-- Delete a file (the effect of `deletefile=True` at `run.py` line 64). -/
def fsDelete (fs : Filesystem) (name : String) : Filesystem :=
  fs.filter (fun kv => !(kv.1 == name))

/-- Models `rebound.Simulation(filename)` (`run.py` lines 29 and 35):
loading a binary returns the latest snapshot it holds; a missing, empty,
corrupt or partially written file raises, modelled as `none`.  Modelled
from the spec for the archive semantics: `open` "returns the most recent
entry". -/
def loadSimulation (fs : Filesystem) (name : String) : Option SimState :=
  match fsLookup fs name with
  | some (FileContent.sim snaps) => snaps.getLast?
  | _ => none

/-- Append one snapshot to an archive file, creating or replacing the file
when it does not hold a readable snapshot sequence. -/
def appendSnap (fs : Filesystem) (name : String) (s : SimState) : Filesystem :=
  match fsLookup fs name with
  | some (FileContent.sim snaps) => fsSet fs name (FileContent.sim (snaps ++ [s]))
  | _ => fsSet fs name (FileContent.sim [s])

/-- The restart branch (`run.py` lines 29-31): the loaded snapshot keeps all
its state; `automateSimulationArchive(filename, step=int(1e4*twopi/sim.dt),
deletefile=False)` re-arms the same cadence, computed from the restored dt. -/
def setupResume (fname : String) (s0 : SimState) : SimState :=
  { s0 with archiveCadence := cadenceOf s0.dt, archiveFilename := some fname }

/-- The fresh-run branch (`run.py` lines 42-64): perturb Mercury, move to
the center-of-mass frame, select WHCKL with its dt and flags, set the exit
distances, and arm the archive with the cadence computed from the dt just
set. -/
def setupFresh (n : ℤ) (base : SimState) : SimState :=
  let s := move_to_com (perturb base n)
  { s with
    integrator := "whckl"
    dt := DtVal.whckldt
    safe_mode := 0
    keep_unsynchronized := true
    exit_min_distance := 3 / 1000
    exit_max_distance := 1000
    archiveCadence := cadenceOf DtVal.whckldt
    archiveFilename := some (filename n) }

/-- A dynamical stop event, with its descriptive payload (modelled from the
spec: a tagged union carrying distance and participant identities). -/
inductive StopEvent where
  | escape (bodyIndex : ℕ) (d2 : ℚ)
  | encounter (i j : ℕ) (d2 : ℚ)
  deriving DecidableEq, Repr

/-- Human-readable description of a stop event (kind, participants,
distance), the payload `print(esc)` / `print(enc)` emits at `run.py` lines
78 and 80.  Modelled from the spec's process-exit behavior. -/
def describeEvent : StopEvent → String
  | StopEvent.escape i d2 =>
      "Escape: particle " ++ toString i ++ " at squared distance " ++
        toString d2 ++ " from the center"
  | StopEvent.encounter i j d2 =>
      "Encounter: particles " ++ toString i ++ " and " ++ toString j ++
        " at squared distance " ++ toString d2

/-- Squared distance of a body from the coordinate origin (the system
center after `move_to_com`). -/
def dist2origin (p : Particle) : ℚ := p.x ^ 2 + p.y ^ 2 + p.z ^ 2

/-- Squared distance between two bodies. -/
def dist2pair (p q : Particle) : ℚ :=
  (p.x - q.x) ^ 2 + (p.y - q.y) ^ 2 + (p.z - q.z) ^ 2

/-- Escape scan, modelled from the spec: a body triggers when its distance
from the center strictly exceeds the threshold (compared on squares). -/
def findEscape (maxd : ℚ) : ℕ → List Particle → Option StopEvent
  | _, [] => none
  | i, p :: ps =>
    if maxd ^ 2 < dist2origin p then some (StopEvent.escape i (dist2origin p))
    else findEscape maxd (i + 1) ps

/-- Close-encounter scan of one body against the later bodies, modelled
from the spec: a pair triggers when its separation falls strictly below the
threshold. -/
def findEncounterWith (mind : ℚ) (i : ℕ) (p : Particle) :
    ℕ → List Particle → Option StopEvent
  | _, [] => none
  | j, q :: qs =>
    if dist2pair p q < mind ^ 2 then some (StopEvent.encounter i j (dist2pair p q))
    else findEncounterWith mind i p (j + 1) qs

/-- Close-encounter scan over all pairs. -/
def findEncounter (mind : ℚ) : ℕ → List Particle → Option StopEvent
  | _, [] => none
  | i, p :: ps =>
    match findEncounterWith mind i p (i + 1) ps with
    | some e => some e
    | none => findEncounter mind (i + 1) ps

/-- Modelled from the spec: the EventMonitor checks, once per step on
synchronized state, for escapes past `exit_max_distance` and encounters
below `exit_min_distance`; a zero threshold disables the corresponding
check, matching the REBOUND defaults of `defaultSim`. -/
def checkEvent (s : SimState) : Option StopEvent :=
  match (if s.exit_max_distance = 0 then none
         else findEscape s.exit_max_distance 0 s.particles) with
  | some e => some e
  | none =>
    if s.exit_min_distance = 0 then none
    else findEncounter s.exit_min_distance 0 s.particles

/-- One integrator step: the physical stepper `stepFn` (the WHCKL
kick-drift-kick step with correctors and the gr potential, modelled from
the spec as a deterministic map of the particle list under the fixed dt)
advances the bodies and the step counter; configuration is untouched. -/
def doStep (stepFn : List Particle → List Particle) (s : SimState) : SimState :=
  { s with particles := stepFn s.particles, stepsDone := s.stepsDone + 1 }

/-- Modelled from the spec: after a step, the Archiver appends a snapshot
exactly when the step counter is a multiple of the armed cadence, never
based on wall-clock or simulation time.  Returns the updated filesystem and
whether a write happened. -/
def maybeArchive (s : SimState) (fs : Filesystem) : Filesystem × Bool :=
  match s.archiveFilename with
  | none => (fs, false)
  | some name =>
    if s.archiveCadence ≠ 0 ∧ s.stepsDone % s.archiveCadence = 0
    then (appendSnap fs name s, true)
    else (fs, false)

/-- Result of the integration loop: final state, filesystem, the step
counts at which a checkpoint was written, and the stop event if one fired. -/
structure IntegrateResult where
  sim : SimState
  fs : Filesystem
  writes : List ℕ
  stopped : Option StopEvent
  deriving DecidableEq, Repr

/-- The loop inside `sim.integrate(5e9*twopi, exact_finish_time=False)`
(`run.py` line 76), modelled from the spec: repeatedly take one fixed step,
let the Archiver run, check the EventMonitor, and stop at the step that
produced an event.  `fuel` is the number of steps remaining to the target
time (with `exact_finish_time=False` the target is a whole number of
steps away). -/
def integrateLoop (stepFn : List Particle → List Particle) :
    ℕ → SimState → Filesystem → IntegrateResult
  | 0, s, fs => { sim := s, fs := fs, writes := [], stopped := none }
  | fuel + 1, s, fs =>
    let s1 := doStep stepFn s
    let fsw := maybeArchive s1 fs
    let w := if fsw.2 then [s1.stepsDone] else []
    match checkEvent s1 with
    | some e => { sim := s1, fs := fsw.1, writes := w, stopped := some e }
    | none =>
      let r := integrateLoop stepFn fuel s1 fsw.1
      { sim := r.sim, fs := r.fs, writes := w ++ r.writes, stopped := r.stopped }

/-- Trace of the externally visible things the script does, in order. -/
inductive Act where
  | printed (msg : String)
  | printedContinuing
  | exited
  | readBin (name : String)
  | savedBin (name : String)
  | armedArchive (name : String) (step : ℕ) (deletefile : Bool)
  | addedForce (name : String)
  deriving DecidableEq, Repr

/-- The error message printed when the run index is missing or unparsable
(`run.py` line 21). -/
def simIdErrorMsg : String := "Need the simulation id as a command line argument."

/-- Outcome of one process run of the script. -/
structure RunResult where
  actions : List Act
  simStart : Option SimState
  final : Option SimState
  fs : Filesystem
  stopped : Option StopEvent
  deriving DecidableEq, Repr

/-- The whole driver script `run.py`: parse the run index (lines 17-22),
derive the checkpoint filename (line 24), resume from the archive if it
loads (lines 28-31), otherwise build, perturb and configure a fresh
simulation (lines 33-64), add the gr potential (lines 68-71), and integrate
with Escape/Encounter handling (lines 75-80).  `horizons` is the particle
list the external NASA Horizons provider returns for `planetnames` (line
39); `stepFn` is the physical stepper and `fuel` the number of steps to the
target time.  `simStart` records the state entering the integration. -/
def runMain (argv : List String) (horizons : List Particle)
    (stepFn : List Particle → List Particle) (fuel : ℕ) (fs : Filesystem) :
    RunResult :=
  match argv.get? 1 >>= pyInt? with
  | none =>
    { actions := [Act.printed simIdErrorMsg, Act.exited],
      simStart := none, final := none, fs := fs, stopped := none }
  | some n =>
    let fname := filename n
    match loadSimulation fs fname with
    | some s0 =>
      let s := setupResume fname s0
      let acts := [Act.readBin fname,
                   Act.armedArchive fname s.archiveCadence false,
                   Act.printedContinuing,
                   Act.addedForce "gr_potential"]
      let r := integrateLoop stepFn fuel s fs
      { actions := acts ++
          (r.stopped.map (fun e => [Act.printed (describeEvent e)])).getD [],
        simStart := some s, final := some r.sim, fs := r.fs, stopped := r.stopped }
    | none =>
      let baseFs : SimState × Filesystem × List Act :=
        match loadSimulation fs "ss.bin" with
        | some b => (b, fs, [Act.readBin "ss.bin"])
        | none =>
          (defaultSim horizons, appendSnap fs "ss.bin" (defaultSim horizons),
           [Act.savedBin "ss.bin"])
      let s := setupFresh n baseFs.1
      let fs2 := fsDelete baseFs.2.1 fname
      let acts := baseFs.2.2 ++
        [Act.armedArchive fname s.archiveCadence true,
         Act.addedForce "gr_potential"]
      let r := integrateLoop stepFn fuel s fs2
      { actions := acts ++
          (r.stopped.map (fun e => [Act.printed (describeEvent e)])).getD [],
        simStart := some s, final := some r.sim, fs := r.fs, stopped := r.stopped }

/-- A run interrupted by process kills: run a segment of steps, get killed,
restart (the restart resumes from the latest archive snapshot exactly as
the restart branch of `run.py` does), and so on through the list of segment
lengths.  Returns the final state, the filesystem, and every step count at
which a checkpoint was written in any segment. -/
def restartRun (stepFn : List Particle → List Particle) (fname : String) :
    List ℕ → SimState → Filesystem → SimState × Filesystem × List ℕ
  | [], s, fs => (s, fs, [])
  | f :: rest, s, fs =>
    let r := integrateLoop stepFn f s fs
    match loadSimulation r.fs fname with
    | some s0 =>
      let rr := restartRun stepFn fname rest (setupResume fname s0) r.fs
      (rr.1, rr.2.1, r.writes ++ rr.2.2)
    | none => (r.sim, r.fs, r.writes)

/-- Spec-side definition, written from the spec's words for the refinement
claim C1: the StateVector an uninterrupted run has at step j is the j-fold
application of the one-step map to the initial state. -/
def uninterruptedState (stepFn : List Particle → List Particle)
    (s : SimState) (j : ℕ) : SimState :=
  (doStep stepFn)^[j] s

/-- The interrupted run of claim C1, built from the code's restart path:
run k steps from s (writing checkpoints), then construct the simulation
from the archive file and re-arm the same cadence exactly as the restart
branch of `run.py` does, and continue for m more steps.  `none` when the
archive cannot be loaded. -/
def resumedRun (stepFn : List Particle → List Particle) (fname : String)
    (k m : ℕ) (s : SimState) (fs : Filesystem) : Option SimState :=
  let r1 := integrateLoop stepFn k s fs
  (loadSimulation r1.fs fname).map
    (fun s0 => (integrateLoop stepFn m (setupResume fname s0) r1.fs).sim)

-- Real-number constants for the numerical claims about the time step.

/-- The constant `twopi = 2.*np.pi` (`run.py` line 12). -/
noncomputable def twopi : ℝ := 2 * Real.pi

/-- The fixed time step set at `run.py` line 53,
`sim.dt = np.sqrt(65)*twopi/365.25` (the real value that `DtVal.whckldt`
stands for in the executable state). -/
noncomputable def dtReal : ℝ := Real.sqrt 65 * twopi / 365.25

/-- The reference orbital period: one year is `2*pi` in the code units
(`G = 1`, lengths in AU), per the spec's IntegratorConfig description. -/
noncomputable def yearPeriod : ℝ := twopi

-- Closed sample data used by the witness and counterexample theorems.

/-- A massless test body far outside the escape radius. -/
def wBody : Particle := { m := 0, x := 2000, y := 0, z := 0, vx := 0, vy := 0, vz := 0 }

/-- A massless test body exactly at the escape radius. -/
def wBoundaryBody : Particle :=
  { m := 0, x := 1000, y := 0, z := 0, vx := 0, vy := 0, vz := 0 }

/-- A well-formed archived snapshot for run index 3, as the fresh branch
would have written it. -/
def wSnap : SimState :=
  { particles := [wBody], stepsDone := archiveStep, integrator := "whckl",
    dt := DtVal.whckldt, safe_mode := 0, keep_unsynchronized := true,
    exit_min_distance := 3 / 1000, exit_max_distance := 1000,
    archiveCadence := archiveStep, archiveFilename := some (filename 3) }

/-- A configured state with no bodies (so no event can ever fire), used to
exercise the resume path across a full archive cadence. -/
def wEmptyState : SimState :=
  { particles := [], stepsDone := 0, integrator := "whckl",
    dt := DtVal.whckldt, safe_mode := 0, keep_unsynchronized := true,
    exit_min_distance := 3 / 1000, exit_max_distance := 1000,
    archiveCadence := archiveStep, archiveFilename := some "f" }

/-- A configured state whose only body sits exactly at the escape radius. -/
def wBoundaryState : SimState := { wSnap with particles := [wBoundaryBody] }

/-- A filesystem holding a valid one-snapshot archive for run 3. -/
def fsResume : Filesystem := [(filename 3, FileContent.sim [wSnap])]

/-- A Sun-like dominant body at the origin. -/
def wSun : Particle := { m := 1, x := 0, y := 0, z := 0, vx := 0, vy := 0, vz := 0 }

/-- A Mercury-like second body (solar mass ratio 1/6023600, 0.4 AU out). -/
def wMercury : Particle :=
  { m := 1 / 6023600, x := 2 / 5, y := 0, z := 0, vx := 0, vy := 0, vz := 0 }

/-- Two-body initial conditions with nonzero total mass, as a valid
`ss.bin` snapshot: body index 1 exists, so `run.py` line 45 and
`move_to_com` are both well-defined on it. -/
def wBase : SimState := defaultSim [wSun, wMercury]

/-- A filesystem whose checkpoint file for run 3 is partially written (it
still holds one valid snapshot), with a valid two-body `ss.bin` beside
it. -/
def fsCorrupt : Filesystem :=
  [(filename 3, FileContent.corruptTail [wSnap]),
   ("ss.bin", FileContent.sim [wBase])]

-- Basic lemmas about modifyIdx, shared by several claims.

theorem modifyIdx_get_ne (f : α → α) (l : List α) (i j : ℕ) (h : j ≠ i) :
    (modifyIdx f i l).get? j = l.get? j := by
  induction l generalizing i j with
  | nil => cases i <;> rfl
  | cons a as ih =>
    cases i with
    | zero =>
      cases j with
      | zero => exact absurd rfl h
      | succ j => rfl
    | succ i =>
      cases j with
      | zero => rfl
      | succ j => exact ih i j (fun hji => h (congrArg Nat.succ hji))

theorem modifyIdx_get_eq (f : α → α) (l : List α) (i : ℕ) :
    (modifyIdx f i l).get? i = (l.get? i).map f := by
  induction l generalizing i with
  | nil => cases i <;> rfl
  | cons a as ih =>
    cases i with
    | zero => rfl
    | succ i => exact ih i

theorem modifyIdx_length (f : α → α) (l : List α) (i : ℕ) :
    (modifyIdx f i l).length = l.length := by
  induction l generalizing i with
  | nil => cases i <;> rfl
  | cons a as ih =>
    cases i with
    | zero => rfl
    | succ i => simp [modifyIdx, ih i]

-- Filesystem lemmas.

theorem fsLookup_fsSet_self (fs : Filesystem) (name : String) (c : FileContent) :
    fsLookup (fsSet fs name c) name = some c := by
  induction fs with
  | nil => simp [fsSet, fsLookup]
  | cons kv rest ih =>
    by_cases h : kv.1 = name
    · simp [fsSet, h, fsLookup]
    · have hb : (kv.1 == name) = false := by simp [h]
      simp only [fsSet, h, if_false, beq_iff_eq]
      simpa [fsLookup, List.find?, hb] using ih

theorem loadSim_appendSnap (fs : Filesystem) (name : String) (s : SimState) :
    loadSimulation (appendSnap fs name s) name = some s := by
  cases h : fsLookup fs name with
  | none => simp [appendSnap, h, loadSimulation, fsLookup_fsSet_self]
  | some c =>
    cases c with
    | sim snaps =>
      simp [appendSnap, h, loadSimulation, fsLookup_fsSet_self, List.getLast?_concat]
    | corruptTail v => simp [appendSnap, h, loadSimulation, fsLookup_fsSet_self]

-- Structure lemmas for the integration loop.

theorem doStep_iterate_stepsDone (stepFn : List Particle → List Particle)
    (j : ℕ) (s : SimState) :
    ((doStep stepFn)^[j] s).stepsDone = s.stepsDone + j := by
  induction j generalizing s with
  | zero => simp
  | succ j ih =>
    rw [Function.iterate_succ_apply]
    rw [ih (doStep stepFn s)]
    simp [doStep]
    omega

theorem integrateLoop_config (stepFn : List Particle → List Particle)
    (fuel : ℕ) (s : SimState) (fs : Filesystem) :
    ((integrateLoop stepFn fuel s fs).sim).integrator = s.integrator ∧
    ((integrateLoop stepFn fuel s fs).sim).dt = s.dt ∧
    ((integrateLoop stepFn fuel s fs).sim).safe_mode = s.safe_mode ∧
    ((integrateLoop stepFn fuel s fs).sim).keep_unsynchronized = s.keep_unsynchronized ∧
    ((integrateLoop stepFn fuel s fs).sim).exit_min_distance = s.exit_min_distance ∧
    ((integrateLoop stepFn fuel s fs).sim).exit_max_distance = s.exit_max_distance ∧
    ((integrateLoop stepFn fuel s fs).sim).archiveCadence = s.archiveCadence ∧
    ((integrateLoop stepFn fuel s fs).sim).archiveFilename = s.archiveFilename := by
  induction fuel generalizing s fs with
  | zero => simp [integrateLoop]
  | succ f ih =>
    simp only [integrateLoop]
    cases h : checkEvent (doStep stepFn s) with
    | some e => simp [doStep]
    | none =>
      simpa [doStep] using ih (doStep stepFn s) (maybeArchive (doStep stepFn s) fs).1

theorem integrateLoop_stepsDone_le (stepFn : List Particle → List Particle)
    (fuel : ℕ) (s : SimState) (fs : Filesystem) :
    s.stepsDone ≤ ((integrateLoop stepFn fuel s fs).sim).stepsDone ∧
    ((integrateLoop stepFn fuel s fs).sim).stepsDone ≤ s.stepsDone + fuel := by
  induction fuel generalizing s fs with
  | zero => simp [integrateLoop]
  | succ f ih =>
    simp only [integrateLoop]
    cases h : checkEvent (doStep stepFn s) with
    | some e => simp [doStep]
    | none =>
      have h2 := ih (doStep stepFn s) (maybeArchive (doStep stepFn s) fs).1
      have h3 : (doStep stepFn s).stepsDone = s.stepsDone + 1 := rfl
      rw [h3] at h2
      simp only [h]
      omega

theorem integrateLoop_sim_of_none (stepFn : List Particle → List Particle)
    (fuel : ℕ) (s : SimState) (fs : Filesystem)
    (h : (integrateLoop stepFn fuel s fs).stopped = none) :
    (integrateLoop stepFn fuel s fs).sim = (doStep stepFn)^[fuel] s := by
  induction fuel generalizing s fs with
  | zero => simp [integrateLoop]
  | succ f ih =>
    rw [Function.iterate_succ_apply]
    simp only [integrateLoop] at h ⊢
    cases hc : checkEvent (doStep stepFn s) with
    | some e => rw [hc] at h; simp at h
    | none =>
      rw [hc] at h
      simp only [] at h ⊢
      exact ih (doStep stepFn s) (maybeArchive (doStep stepFn s) fs).1 h

theorem maybeArchive_eq (s : SimState) (fs : Filesystem) (name : String)
    (hn : s.archiveFilename = some name) (hc : s.archiveCadence ≠ 0) :
    maybeArchive s fs =
      if s.stepsDone % s.archiveCadence = 0 then (appendSnap fs name s, true)
      else (fs, false) := by
  simp only [maybeArchive, hn]
  by_cases h : s.stepsDone % s.archiveCadence = 0 <;> simp [h, hc]

theorem maybeArchive_true (s : SimState) (fs : Filesystem)
    (h : (maybeArchive s fs).2 = true) :
    s.archiveCadence ≠ 0 ∧ s.stepsDone % s.archiveCadence = 0 := by
  by_cases hn : s.archiveFilename = none
  · simp [maybeArchive, hn] at h
  · obtain ⟨name, hname⟩ := Option.ne_none_iff_exists'.mp hn
    simp only [maybeArchive, hname] at h
    by_cases hcm : s.archiveCadence ≠ 0 ∧ s.stepsDone % s.archiveCadence = 0
    · exact hcm
    · simp [hcm] at h

theorem maybeArchive_fst (s : SimState) (fs : Filesystem) :
    (maybeArchive s fs).1 = fs ∨
    ∃ name, s.archiveFilename = some name ∧
      (maybeArchive s fs).1 = appendSnap fs name s := by
  cases h : s.archiveFilename with
  | none => left; simp [maybeArchive, h]
  | some name =>
    by_cases hc : s.archiveCadence ≠ 0 ∧ s.stepsDone % s.archiveCadence = 0
    · right; exact ⟨name, rfl, by simp [maybeArchive, h, hc]⟩
    · left; simp [maybeArchive, h, hc]

theorem integrateLoop_writes_sound (stepFn : List Particle → List Particle)
    (fuel : ℕ) (s : SimState) (fs : Filesystem) :
    ∀ j ∈ (integrateLoop stepFn fuel s fs).writes,
      s.archiveCadence ≠ 0 ∧ s.archiveCadence ∣ j := by
  induction fuel generalizing s fs with
  | zero => simp [integrateLoop]
  | succ f ih =>
    intro j hj
    have hcad : (doStep stepFn s).archiveCadence = s.archiveCadence := rfl
    have hone : ∀ hjw : j ∈ (if (maybeArchive (doStep stepFn s) fs).2 = true
        then [(doStep stepFn s).stepsDone] else ([] : List ℕ)),
        s.archiveCadence ≠ 0 ∧ s.archiveCadence ∣ j := by
      intro hjw
      by_cases hb : (maybeArchive (doStep stepFn s) fs).2 = true
      · rw [if_pos hb] at hjw
        simp at hjw
        subst hjw
        obtain ⟨h1, h2⟩ := maybeArchive_true _ _ hb
        rw [hcad] at h1 h2
        exact ⟨h1, Nat.dvd_of_mod_eq_zero h2⟩
      · rw [if_neg hb] at hjw
        simp at hjw
    simp only [integrateLoop] at hj
    cases hce : checkEvent (doStep stepFn s) with
    | some e =>
      rw [hce] at hj
      simp only [] at hj
      exact hone hj
    | none =>
      rw [hce] at hj
      simp only [] at hj
      rcases List.mem_append.mp hj with hj1 | hj2
      · exact hone hj1
      · have := ih (doStep stepFn s) (maybeArchive (doStep stepFn s) fs).1 j hj2
        rwa [hcad] at this

theorem integrateLoop_writes_iff (stepFn : List Particle → List Particle)
    (fuel : ℕ) (s : SimState) (fs : Filesystem) (fname : String)
    (hn : s.archiveFilename = some fname) (hc : s.archiveCadence ≠ 0) (j : ℕ) :
    j ∈ (integrateLoop stepFn fuel s fs).writes ↔
      (s.stepsDone < j ∧ j ≤ ((integrateLoop stepFn fuel s fs).sim).stepsDone ∧
        s.archiveCadence ∣ j) := by
  induction fuel generalizing s fs with
  | zero =>
    simp only [integrateLoop]
    constructor
    · intro h; simp at h
    · rintro ⟨h1, h2, -⟩; omega
  | succ f ih =>
    have hs1n : (doStep stepFn s).archiveFilename = some fname := hn
    have hs1c : (doStep stepFn s).archiveCadence ≠ 0 := hc
    have hsd : (doStep stepFn s).stepsDone = s.stepsDone + 1 := rfl
    simp only [integrateLoop]
    rw [maybeArchive_eq (doStep stepFn s) fs fname hs1n hs1c]
    cases hce : checkEvent (doStep stepFn s) with
    | some e =>
      simp only []
      by_cases hm : (doStep stepFn s).stepsDone % (doStep stepFn s).archiveCadence = 0
      · rw [if_pos hm]
        simp only [hsd]
        constructor
        · intro hj
          simp at hj
          subst hj
          refine ⟨by omega, by omega, Nat.dvd_of_mod_eq_zero ?_⟩
          rw [← hsd]
          exact hm
        · rintro ⟨h1, h2, -⟩
          simp
          omega
      · rw [if_neg hm]
        constructor
        · intro hj; simp at hj
        · rintro ⟨h1, h2, hd⟩
          have hj : j = s.stepsDone + 1 := by omega
          subst hj
          exact absurd (Nat.mod_eq_zero_of_dvd hd) hm
    | none =>
      simp only []
      by_cases hm : (doStep stepFn s).stepsDone % (doStep stepFn s).archiveCadence = 0
      · rw [if_pos hm]
        rw [if_pos (rfl :
          ((appendSnap fs fname (doStep stepFn s), true).2 = true))]
        have hmono := (integrateLoop_stepsDone_le stepFn f (doStep stepFn s)
          (appendSnap fs fname (doStep stepFn s))).1
        have hiff := ih (doStep stepFn s)
          (appendSnap fs fname (doStep stepFn s)) hs1n hs1c
        rw [hsd] at hmono hiff
        simp only [List.mem_append, List.mem_singleton, hsd]
        rw [hiff]
        constructor
        · rintro (hj | ⟨h1, h2, h3⟩)
          · subst hj
            refine ⟨by omega, by omega, Nat.dvd_of_mod_eq_zero ?_⟩
            rw [← hsd]; exact hm
          · exact ⟨by omega, h2, h3⟩
        · rintro ⟨h1, h2, h3⟩
          by_cases hj : j = s.stepsDone + 1
          · exact Or.inl hj
          · exact Or.inr ⟨by omega, h2, h3⟩
      · rw [if_neg hm]
        rw [if_neg (fun hh => Bool.noConfusion
          (hh : ((fs, false).2 = true)))]
        have hiff := ih (doStep stepFn s) fs hs1n hs1c
        rw [hsd] at hiff
        simp only [List.nil_append, hsd]
        rw [hiff]
        constructor
        · rintro ⟨h1, h2, h3⟩
          exact ⟨by omega, h2, h3⟩
        · rintro ⟨h1, h2, h3⟩
          refine ⟨?_, h2, h3⟩
          by_cases hj : j = s.stepsDone + 1
          · subst hj
            exfalso
            exact hm (by rw [hsd]; exact Nat.mod_eq_zero_of_dvd h3)
          · omega

theorem integrateLoop_add (stepFn : List Particle → List Particle)
    (k m : ℕ) (s : SimState) (fs : Filesystem)
    (h : (integrateLoop stepFn k s fs).stopped = none) :
    integrateLoop stepFn (k + m) s fs =
      { sim := (integrateLoop stepFn m (integrateLoop stepFn k s fs).sim
                 (integrateLoop stepFn k s fs).fs).sim,
        fs := (integrateLoop stepFn m (integrateLoop stepFn k s fs).sim
                 (integrateLoop stepFn k s fs).fs).fs,
        writes := (integrateLoop stepFn k s fs).writes ++
          (integrateLoop stepFn m (integrateLoop stepFn k s fs).sim
             (integrateLoop stepFn k s fs).fs).writes,
        stopped := (integrateLoop stepFn m (integrateLoop stepFn k s fs).sim
                     (integrateLoop stepFn k s fs).fs).stopped } := by
  induction k generalizing s fs with
  | zero => simp [integrateLoop]
  | succ k ih =>
    have hadd : k + 1 + m = (k + m) + 1 := by omega
    rw [hadd]
    simp only [integrateLoop] at h ⊢
    cases hc : checkEvent (doStep stepFn s) with
    | some e => rw [hc] at h; simp at h
    | none =>
      rw [hc] at h
      simp only [] at h ⊢
      rw [ih (doStep stepFn s) (maybeArchive (doStep stepFn s) fs).1 h]
      simp [List.append_assoc]

theorem loadSim_after_run (stepFn : List Particle → List Particle)
    (k : ℕ) (s : SimState) (fs : Filesystem) (fname : String)
    (hn : s.archiveFilename = some fname) (hc : s.archiveCadence ≠ 0)
    (hd : s.archiveCadence ∣ (s.stepsDone + k)) (hk : 0 < k)
    (hstop : (integrateLoop stepFn k s fs).stopped = none) :
    loadSimulation (integrateLoop stepFn k s fs).fs fname =
      some (integrateLoop stepFn k s fs).sim := by
  induction k generalizing s fs with
  | zero => omega
  | succ k ih =>
    have hs1n : (doStep stepFn s).archiveFilename = some fname := hn
    have hs1c : (doStep stepFn s).archiveCadence ≠ 0 := hc
    have hsd : (doStep stepFn s).stepsDone = s.stepsDone + 1 := rfl
    simp only [integrateLoop] at hstop ⊢
    cases hce : checkEvent (doStep stepFn s) with
    | some e => rw [hce] at hstop; simp at hstop
    | none =>
      rw [hce] at hstop
      simp only [] at hstop ⊢
      cases Nat.eq_zero_or_pos k with
      | inl hk0 =>
        subst hk0
        have hm : (doStep stepFn s).stepsDone % (doStep stepFn s).archiveCadence = 0 := by
          rw [hsd]
          exact Nat.mod_eq_zero_of_dvd (by simpa using hd)
        rw [maybeArchive_eq (doStep stepFn s) fs fname hs1n hs1c] at hstop ⊢
        rw [if_pos hm] at hstop ⊢
        simp only [integrateLoop]
        exact loadSim_appendSnap fs fname (doStep stepFn s)
      | inr hkpos =>
        have hd1 : (doStep stepFn s).archiveCadence ∣
            ((doStep stepFn s).stepsDone + k) := by
          rw [hsd]
          have : s.stepsDone + 1 + k = s.stepsDone + (k + 1) := by omega
          rw [this]
          exact hd
        exact ih (doStep stepFn s) (maybeArchive (doStep stepFn s) fs).1
          hs1n hs1c hd1 hkpos hstop

theorem loadSim_dt_invariant (stepFn : List Particle → List Particle)
    (fuel : ℕ) (s : SimState) (fs : Filesystem) (fname : String)
    (hn : s.archiveFilename = some fname) (hdt : s.dt = DtVal.whckldt)
    (hinv : ∀ t, loadSimulation fs fname = some t → t.dt = DtVal.whckldt) :
    ∀ t, loadSimulation (integrateLoop stepFn fuel s fs).fs fname = some t →
      t.dt = DtVal.whckldt := by
  induction fuel generalizing s fs with
  | zero => simpa [integrateLoop] using hinv
  | succ f ih =>
    have hs1n : (doStep stepFn s).archiveFilename = some fname := hn
    have hs1dt : (doStep stepFn s).dt = DtVal.whckldt := hdt
    have hinv1 : ∀ t, loadSimulation (maybeArchive (doStep stepFn s) fs).1 fname =
        some t → t.dt = DtVal.whckldt := by
      intro t ht
      rcases maybeArchive_fst (doStep stepFn s) fs with hsame | ⟨name, hname, happ⟩
      · rw [hsame] at ht
        exact hinv t ht
      · have : name = fname := by
          rw [hs1n] at hname
          exact (Option.some.inj hname).symm
        subst this
        rw [happ] at ht
        rw [loadSim_appendSnap] at ht
        injection ht with ht
        rw [← ht]
        exact hdt
    simp only [integrateLoop]
    cases hce : checkEvent (doStep stepFn s) with
    | some e =>
      simp only []
      exact hinv1
    | none =>
      simp only []
      exact ih (doStep stepFn s) (maybeArchive (doStep stepFn s) fs).1 hs1n hdt hinv1

theorem integrateLoop_stop_spec (stepFn : List Particle → List Particle)
    (fuel : ℕ) (s : SimState) (fs : Filesystem) (e : StopEvent)
    (h : (integrateLoop stepFn fuel s fs).stopped = some e) :
    ∃ j, 0 < j ∧ j ≤ fuel ∧
      (integrateLoop stepFn fuel s fs).sim = (doStep stepFn)^[j] s ∧
      checkEvent ((doStep stepFn)^[j] s) = some e ∧
      ∀ i, 0 < i → i < j → checkEvent ((doStep stepFn)^[i] s) = none := by
  induction fuel generalizing s fs with
  | zero => simp [integrateLoop] at h
  | succ f ih =>
    simp only [integrateLoop] at h ⊢
    cases hc : checkEvent (doStep stepFn s) with
    | some e2 =>
      rw [hc] at h
      simp only [] at h ⊢
      have he : e2 = e := by injection h
      subst he
      refine ⟨1, Nat.one_pos, by omega, ?_, ?_, ?_⟩
      · simp [Function.iterate_one]
      · simpa [Function.iterate_one] using hc
      · intro i h1 h2; omega
    | none =>
      rw [hc] at h
      simp only [] at h ⊢
      obtain ⟨j, hj0, hjf, hsim, hce, hprev⟩ :=
        ih (doStep stepFn s) (maybeArchive (doStep stepFn s) fs).1 h
      refine ⟨j + 1, by omega, by omega, ?_, ?_, ?_⟩
      · rw [Function.iterate_succ_apply]; exact hsim
      · rw [Function.iterate_succ_apply]; exact hce
      · intro i hi0 hij
        cases i with
        | zero => omega
        | succ i2 =>
          cases Nat.eq_zero_or_pos i2 with
          | inl h0 =>
            subst h0
            simpa [Function.iterate_one] using hc
          | inr hpos =>
            rw [Function.iterate_succ_apply]
            exact hprev i2 hpos (by omega)

theorem checkEvent_nil (s : SimState) (h : s.particles = []) :
    checkEvent s = none := by
  have h1 : findEscape s.exit_max_distance 0 s.particles = none := by
    rw [h]; rfl
  have h2 : findEncounter s.exit_min_distance 0 s.particles = none := by
    rw [h]; rfl
  simp [checkEvent, h1, h2]

theorem integrateLoop_nil_particles (stepFn : List Particle → List Particle)
    (fuel : ℕ) (s : SimState) (fs : Filesystem)
    (hp : s.particles = []) (hstep : stepFn [] = []) :
    (integrateLoop stepFn fuel s fs).stopped = none ∧
    ((integrateLoop stepFn fuel s fs).sim).particles = [] := by
  induction fuel generalizing s fs with
  | zero => simp [integrateLoop, hp]
  | succ f ih =>
    have hp1 : (doStep stepFn s).particles = [] := by simp [doStep, hp, hstep]
    have hc : checkEvent (doStep stepFn s) = none := checkEvent_nil _ hp1
    simp only [integrateLoop, hc]
    exact ih (doStep stepFn s) (maybeArchive (doStep stepFn s) fs).1 hp1

theorem setupResume_eq_self (fname : String) (s0 : SimState)
    (h1 : s0.archiveCadence = cadenceOf s0.dt)
    (h2 : s0.archiveFilename = some fname) :
    setupResume fname s0 = s0 := by
  cases s0
  simp_all [setupResume]

-- Scan lemmas for the event monitor.

theorem findEscape_isSome_iff (maxd : ℚ) (ps : List Particle) (i : ℕ) :
    (findEscape maxd i ps).isSome ↔ ∃ p ∈ ps, maxd ^ 2 < dist2origin p := by
  induction ps generalizing i with
  | nil => simp [findEscape]
  | cons p rest ih =>
    simp only [findEscape]
    by_cases h : maxd ^ 2 < dist2origin p
    · simp [h]
    · simp [h, ih (i + 1)]

theorem findEscape_shape (maxd : ℚ) (ps : List Particle) (i : ℕ) (e : StopEvent)
    (h : findEscape maxd i ps = some e) : ∃ b d2, e = StopEvent.escape b d2 := by
  induction ps generalizing i with
  | nil => simp [findEscape] at h
  | cons p rest ih =>
    simp only [findEscape] at h
    by_cases hc : maxd ^ 2 < dist2origin p
    · rw [if_pos hc] at h
      exact ⟨_, _, (Option.some.inj h).symm⟩
    · rw [if_neg hc] at h
      exact ih (i + 1) h

theorem findEncounterWith_shape (mind : ℚ) (i : ℕ) (p : Particle)
    (j : ℕ) (qs : List Particle) (e : StopEvent)
    (h : findEncounterWith mind i p j qs = some e) :
    ∃ a b d2, e = StopEvent.encounter a b d2 := by
  induction qs generalizing j with
  | nil => simp [findEncounterWith] at h
  | cons q rest ih =>
    simp only [findEncounterWith] at h
    by_cases hc : dist2pair p q < mind ^ 2
    · rw [if_pos hc] at h
      exact ⟨_, _, _, (Option.some.inj h).symm⟩
    · rw [if_neg hc] at h
      exact ih (j + 1) h

theorem findEncounter_shape (mind : ℚ) (ps : List Particle) (i : ℕ) (e : StopEvent)
    (h : findEncounter mind i ps = some e) :
    ∃ a b d2, e = StopEvent.encounter a b d2 := by
  induction ps generalizing i with
  | nil => simp [findEncounter] at h
  | cons p rest ih =>
    simp only [findEncounter] at h
    cases hw : findEncounterWith mind i p (i + 1) rest with
    | some e2 =>
      rw [hw] at h
      simp only [] at h
      exact (Option.some.inj h) ▸ findEncounterWith_shape mind i p (i + 1) rest e2 hw
    | none =>
      rw [hw] at h
      simp only [] at h
      exact ih (i + 1) h

theorem checkEvent_escape_iff (s : SimState) (hmax : s.exit_max_distance = 1000) :
    (∃ b d2, checkEvent s = some (StopEvent.escape b d2)) ↔
      ∃ p ∈ s.particles, (1000 : ℚ) ^ 2 < dist2origin p := by
  have hz : ¬ ((1000 : ℚ) = 0) := by norm_num
  simp only [checkEvent, hmax, if_neg hz]
  cases hesc : findEscape 1000 0 s.particles with
  | some e =>
    simp only []
    constructor
    · intro _
      have := findEscape_isSome_iff 1000 s.particles 0
      rw [hesc] at this
      simpa using this.mp rfl
    · intro _
      obtain ⟨b, d2, he⟩ := findEscape_shape 1000 s.particles 0 e hesc
      exact ⟨b, d2, by rw [he]⟩
  | none =>
    simp only []
    constructor
    · rintro ⟨b, d2, hb⟩
      by_cases hminz : s.exit_min_distance = 0
      · rw [if_pos hminz] at hb
        exact absurd hb (by simp)
      · rw [if_neg hminz] at hb
        obtain ⟨a', b', d2', he⟩ :=
          findEncounter_shape s.exit_min_distance s.particles 0 _ hb
        simp at he
    · intro hp
      have := findEscape_isSome_iff 1000 s.particles 0
      rw [hesc] at this
      simpa using this.mpr hp

-- Real-number facts about the time step.

theorem sqrt65_irrational : Irrational (Real.sqrt 65) := by
  have h65 : ((65 : ℕ) : ℝ) = (65 : ℝ) := by norm_num
  rw [← h65]
  refine irrational_sqrt_natCast_iff.mpr ?_
  rintro ⟨r, hr⟩
  have hle : r ≤ 8 := by nlinarith
  interval_cases r <;> omega

theorem dtReal_div_year : dtReal / yearPeriod = Real.sqrt 65 / 365.25 := by
  have hpi : Real.pi ≠ 0 := Real.pi_ne_zero
  unfold dtReal yearPeriod twopi
  field_simp
  ring

theorem cadence_whckldt_eq_floor :
    (cadenceOf DtVal.whckldt : ℤ) = ⌊(10000 : ℝ) * twopi / dtReal⌋ := by
  have hs : Real.sqrt 65 ^ 2 = 65 := Real.sq_sqrt (by norm_num)
  have hs0 : (0 : ℝ) < Real.sqrt 65 := Real.sqrt_pos.mpr (by norm_num)
  have hpi : Real.pi ≠ 0 := Real.pi_ne_zero
  have hexpr : (10000 : ℝ) * twopi / dtReal = 3652500 / Real.sqrt 65 := by
    unfold dtReal twopi
    field_simp
    ring
  rw [hexpr]
  have hfloor : ⌊(3652500 : ℝ) / Real.sqrt 65⌋ = (453036 : ℤ) := by
    rw [Int.floor_eq_iff]
    push_cast
    constructor
    · rw [le_div_iff₀ hs0]
      nlinarith [hs, hs0.le]
    · rw [div_lt_iff₀ hs0]
      nlinarith [hs, hs0.le]
  rw [hfloor]
  rfl

-- Claim theorems.

/-- C4: the ensemble perturbation is deterministic and linear in the run
index: the same input StateVector and run index always give the identical
output, the offset added to the designated body (index 1, Mercury) is
exactly `0.38*n` millimeters, i.e. `0.38*n/149597870700000` in AU units,
run index 0 gives zero offset, and the offset is additive in the index. -/
theorem perturb_deterministic_linear :
    (∀ (s : SimState) (n : ℤ), perturb s n = perturb s n) ∧
    (∀ (s : SimState) (n : ℤ), (perturb s n).particles.get? 1 =
      (s.particles.get? 1).map (fun p => { p with x := p.x + dx n })) ∧
    (∀ n : ℤ, dx n = (38 : ℚ) / 100 * n / 149597870700000) ∧
    dx 0 = 0 ∧
    (∀ a b : ℤ, dx (a + b) = dx a + dx b) ∧
    (∀ n : ℤ, dx n = n * dx 1) := by
  refine ⟨fun s n => rfl, fun s n => ?_, fun n => rfl, by simp [dx], ?_, ?_⟩
  · simp only [perturb]
    exact modifyIdx_get_eq _ _ 1
  · intro a b
    simp only [dx, au]
    push_cast
    ring
  · intro n
    simp only [dx, au]
    push_cast
    ring

/-- C10: the perturbation modifies only the x coordinate of the body at
index 1 (Mercury), before the subsequent move to the center-of-mass frame:
every body at another index is untouched, body 1 keeps its mass, velocity,
y and z, the particle count is unchanged, and no other state field
changes. -/
theorem perturb_only_mercury_x :
    ∀ (s : SimState) (n : ℤ),
      (∀ i, i ≠ 1 → (perturb s n).particles.get? i = s.particles.get? i) ∧
      ((perturb s n).particles.get? 1).map
          (fun p => (p.m, p.y, p.z, p.vx, p.vy, p.vz)) =
        (s.particles.get? 1).map (fun p => (p.m, p.y, p.z, p.vx, p.vy, p.vz)) ∧
      (perturb s n).particles.length = s.particles.length ∧
      (perturb s n).stepsDone = s.stepsDone ∧
      (perturb s n).dt = s.dt ∧
      (perturb s n).exit_min_distance = s.exit_min_distance ∧
      (perturb s n).exit_max_distance = s.exit_max_distance := by
  intro s n
  refine ⟨fun i hi => ?_, ?_, ?_, rfl, rfl, rfl, rfl⟩
  · simp only [perturb]
    exact modifyIdx_get_ne _ _ 1 i hi
  · simp only [perturb]
    rw [modifyIdx_get_eq]
    cases s.particles.get? 1 <;> rfl
  · simp only [perturb]
    exact modifyIdx_length _ _ 1

theorem perturb_only_mercury_x_witness :
    ((0 : ℕ) ≠ 1) ∧
    (perturb wSnap 5).particles.get? 0 = wSnap.particles.get? 0 :=
  ⟨by decide, (perturb_only_mercury_x wSnap 5).1 0 (by decide)⟩

/-- C9: when the run-index argument is missing or cannot be parsed as an
integer, the program prints the error message and exits with the
filesystem untouched, having derived no checkpoint filename, opened or
written no file, and performed no integration step: the whole run result
is exactly the two-action error trace. -/
theorem missing_sim_id_exits :
    ∀ (argv : List String) (horizons : List Particle)
      (stepFn : List Particle → List Particle) (fuel : ℕ) (fs : Filesystem),
      argv.get? 1 >>= pyInt? = none →
      runMain argv horizons stepFn fuel fs =
        { actions := [Act.printed simIdErrorMsg, Act.exited],
          simStart := none, final := none, fs := fs, stopped := none } := by
  intro argv horizons stepFn fuel fs h
  simp only [runMain, h]

theorem missing_sim_id_exits_witness :
    ((["run.py"] : List String).get? 1 >>= pyInt? = none) ∧
    runMain ["run.py"] [] id 7 [] =
      { actions := [Act.printed simIdErrorMsg, Act.exited],
        simStart := none, final := none, fs := [], stopped := none } :=
  ⟨rfl, missing_sim_id_exits ["run.py"] [] id 7 [] rfl⟩

/-- C6: the fixed time step is `sqrt(65)*2*pi/365.25`, an irrational
multiple of the reference orbital period `2*pi` (one year in code units),
so no positive whole number of steps spans a rational multiple of the
year, and the integration loop never changes the dt configuration. -/
theorem dt_irrational_multiple :
    dtReal = (Real.sqrt 65 / 365.25) * yearPeriod ∧
    Irrational (Real.sqrt 65 / 365.25) ∧
    (∀ k : ℕ, 0 < k → Irrational ((k : ℝ) * (dtReal / yearPeriod))) ∧
    (∀ (stepFn : List Particle → List Particle) (fuel : ℕ) (s : SimState)
      (fs : Filesystem), ((integrateLoop stepFn fuel s fs).sim).dt = s.dt) := by
  have hirr : Irrational (Real.sqrt 65 / 365.25) := by
    have h : (365.25 : ℝ) = ((1461 / 4 : ℚ) : ℝ) := by norm_num
    rw [h]
    exact sqrt65_irrational.div_rat (by norm_num)
  refine ⟨?_, hirr, ?_, ?_⟩
  · unfold dtReal yearPeriod twopi
    ring
  · intro k hk
    rw [dtReal_div_year]
    exact hirr.nat_mul (by omega)
  · intro stepFn fuel s fs
    exact (integrateLoop_config stepFn fuel s fs).2.1

theorem dt_irrational_multiple_witness :
    0 < 2 ∧ Irrational ((2 : ℕ) * (dtReal / yearPeriod)) :=
  ⟨by norm_num, dt_irrational_multiple.2.2.1 2 (by norm_num)⟩

/-- C8: the Escape event triggers exactly when some body's distance from
the system's center strictly exceeds the configured threshold 1000 (in AU
code units, compared on squared distances); a body exactly at the
threshold does not trigger it.  The fresh-run setup indeed arms threshold
1000. -/
theorem escape_strict_inequality :
    (∀ (n : ℤ) (base : SimState), (setupFresh n base).exit_max_distance = 1000) ∧
    (∀ s : SimState, s.exit_max_distance = 1000 →
      ((∃ b d2, checkEvent s = some (StopEvent.escape b d2)) ↔
        ∃ p ∈ s.particles, (1000 : ℚ) ^ 2 < dist2origin p)) ∧
    (∀ s : SimState, s.exit_max_distance = 1000 →
      (∀ p ∈ s.particles, dist2origin p ≤ 1000 ^ 2) →
      ∀ b d2, checkEvent s ≠ some (StopEvent.escape b d2)) := by
  refine ⟨fun n base => rfl, fun s h => checkEvent_escape_iff s h, ?_⟩
  intro s h hle b d2 hev
  obtain ⟨p, hp, hgt⟩ := (checkEvent_escape_iff s h).mp ⟨b, d2, hev⟩
  exact absurd (hle p hp) (not_le.mpr hgt)

theorem wBoundary_at_threshold :
    ∀ p ∈ wBoundaryState.particles, dist2origin p ≤ 1000 ^ 2 := by
  intro p hp
  have hp2 : p = wBoundaryBody := by
    simpa [wBoundaryState, wSnap] using hp
  subst hp2
  norm_num [dist2origin, wBoundaryBody]

theorem escape_strict_inequality_witness :
    wBoundaryState.exit_max_distance = 1000 ∧
    (∀ p ∈ wBoundaryState.particles, dist2origin p ≤ 1000 ^ 2) ∧
    ∀ b d2, checkEvent wBoundaryState ≠ some (StopEvent.escape b d2) :=
  ⟨rfl, wBoundary_at_threshold,
    escape_strict_inequality.2.2 wBoundaryState rfl wBoundary_at_threshold⟩

theorem fsLookup_fsDelete (fs : Filesystem) (name : String) :
    fsLookup (fsDelete fs name) name = none := by
  induction fs with
  | nil => rfl
  | cons kv rest ih =>
    by_cases h : kv.1 = name
    · simpa [fsDelete, h] using ih
    · have hb : (kv.1 == name) = false := by simp [h]
      simp only [fsDelete, List.filter, hb, Bool.not_false] at ih ⊢
      simp only [fsLookup, List.find?, hb]
      exact ih

/-- C5: the perturbation is applied exactly once and only to a freshly
created StateVector: a run that successfully resumes from an existing
checkpoint file enters integration with the archived particles bit-intact
(no perturbation re-applied, so the resumed run reproduces the original
perturbed trajectory), while the fresh branch applies `perturb` exactly
once, before the center-of-mass shift. -/
theorem resume_skips_perturbation :
    (∀ (argv : List String) (horizons : List Particle)
       (stepFn : List Particle → List Particle) (fuel : ℕ) (fs : Filesystem)
       (n : ℤ) (s0 : SimState),
       argv.get? 1 >>= pyInt? = some n →
       loadSimulation fs (filename n) = some s0 →
       (runMain argv horizons stepFn fuel fs).simStart =
         some (setupResume (filename n) s0) ∧
       (setupResume (filename n) s0).particles = s0.particles) ∧
    (∀ (n : ℤ) (base : SimState),
       (setupFresh n base).particles = (move_to_com (perturb base n)).particles) := by
  constructor
  · intro argv horizons stepFn fuel fs n s0 hp hload
    refine ⟨?_, rfl⟩
    simp only [runMain, hp, hload]
  · intro n base
    rfl

theorem resume_skips_perturbation_witness :
    ((["run.py", "3"] : List String).get? 1 >>= pyInt? = some 3) ∧
    loadSimulation fsResume (filename 3) = some wSnap ∧
    ((runMain ["run.py", "3"] [] id 0 fsResume).simStart =
      some (setupResume (filename 3) wSnap) ∧
     (setupResume (filename 3) wSnap).particles = wSnap.particles) :=
  ⟨rfl, rfl,
    resume_skips_perturbation.1 ["run.py", "3"] [] id 0 fsResume 3 wSnap rfl rfl⟩

/-- C7: when a CloseEncounter or Escape stop event is raised, the run
stops at the step that produced the event — the final state is exactly the
j-th iterate of the stepper for the first triggering step j, with no
stepping past it — and the event's human-readable description (kind,
participants, distance) is printed to the caller rather than swallowed. -/
theorem stop_event_halts_and_surfaces :
    ∀ (argv : List String) (horizons : List Particle)
      (stepFn : List Particle → List Particle) (fuel : ℕ) (fs : Filesystem)
      (e : StopEvent),
      (runMain argv horizons stepFn fuel fs).stopped = some e →
      Act.printed (describeEvent e) ∈ (runMain argv horizons stepFn fuel fs).actions ∧
      ∃ s0, (runMain argv horizons stepFn fuel fs).simStart = some s0 ∧
        ∃ j, 0 < j ∧ j ≤ fuel ∧
          (runMain argv horizons stepFn fuel fs).final =
            some ((doStep stepFn)^[j] s0) ∧
          checkEvent ((doStep stepFn)^[j] s0) = some e ∧
          ∀ i, 0 < i → i < j → checkEvent ((doStep stepFn)^[i] s0) = none := by
  intro argv horizons stepFn fuel fs e h
  cases hp : argv.get? 1 >>= pyInt? with
  | none => rw [missing_sim_id_exits argv horizons stepFn fuel fs hp] at h; simp at h
  | some n =>
    cases hload : loadSimulation fs (filename n) with
    | some s0 =>
      simp only [runMain, hp, hload] at h ⊢
      obtain ⟨j, hj0, hjf, hsim, hce, hprev⟩ := integrateLoop_stop_spec _ _ _ _ _ h
      rw [h]
      refine ⟨by simp, setupResume (filename n) s0, rfl,
        j, hj0, hjf, by rw [← hsim], hce, hprev⟩
    | none =>
      cases hss : loadSimulation fs "ss.bin" with
      | some b =>
        simp only [runMain, hp, hload, hss] at h ⊢
        obtain ⟨j, hj0, hjf, hsim, hce, hprev⟩ := integrateLoop_stop_spec _ _ _ _ _ h
        rw [h]
        refine ⟨by simp, setupFresh n b, rfl,
          j, hj0, hjf, by rw [← hsim], hce, hprev⟩
      | none =>
        simp only [runMain, hp, hload, hss] at h ⊢
        obtain ⟨j, hj0, hjf, hsim, hce, hprev⟩ := integrateLoop_stop_spec _ _ _ _ _ h
        rw [h]
        refine ⟨by simp, setupFresh n (defaultSim horizons), rfl,
          j, hj0, hjf, by rw [← hsim], hce, hprev⟩

theorem wRun_stopped :
    (runMain ["run.py", "3"] [] id 1 fsResume).stopped =
      some (StopEvent.escape 0 (dist2origin wBody)) := by
  have hp : (["run.py", "3"] : List String).get? 1 >>= pyInt? = some 3 := rfl
  have hload : loadSimulation fsResume (filename 3) = some wSnap := rfl
  have hmax : (doStep id (setupResume (filename 3) wSnap)).exit_max_distance =
      1000 := rfl
  have hp1 : (doStep id (setupResume (filename 3) wSnap)).particles = [wBody] := rfl
  have hd : (1000 : ℚ) ^ 2 < dist2origin wBody := by
    norm_num [dist2origin, wBody]
  have hesc : checkEvent (doStep id (setupResume (filename 3) wSnap)) =
      some (StopEvent.escape 0 (dist2origin wBody)) := by
    unfold checkEvent
    rw [hmax, hp1, if_neg (by norm_num : ¬((1000 : ℚ) = 0))]
    simp only [findEscape, if_pos hd]
  simp only [runMain, hp, hload, integrateLoop, hesc]

theorem stop_event_halts_and_surfaces_witness :
    ((runMain ["run.py", "3"] [] id 1 fsResume).stopped =
      some (StopEvent.escape 0 (dist2origin wBody))) ∧
    Act.printed (describeEvent (StopEvent.escape 0 (dist2origin wBody))) ∈
      (runMain ["run.py", "3"] [] id 1 fsResume).actions :=
  ⟨wRun_stopped,
    (stop_event_halts_and_surfaces ["run.py", "3"] [] id 1 fsResume
      (StopEvent.escape 0 (dist2origin wBody)) wRun_stopped).1⟩

/-- C2 (amended): when the checkpoint file at the derived path exists but
is corrupt or partially written, and the fresh initial conditions hold at
least two bodies with nonzero total mass (so the perturbation at `run.py`
line 45 and `move_to_com` are well-defined, as they always are for the
nine-planet setup), the program does not stop: it falls back to the
fresh-start path (so it never exits and proceeds into integration on a
freshly perturbed state), and it re-arms the archive at the same path with
deletefile=True, which deletes the existing file and so discards every
entry it held, including the most recent valid one. -/
theorem corrupt_checkpoint_fresh_restart :
    ∀ (argv : List String) (horizons : List Particle)
      (stepFn : List Particle → List Particle) (fuel : ℕ) (fs : Filesystem)
      (n : ℤ) (snaps : List SimState),
      argv.get? 1 >>= pyInt? = some n →
      fsLookup fs (filename n) = some (FileContent.corruptTail snaps) →
      (∀ b, loadSimulation fs "ss.bin" = some b →
        1 < b.particles.length ∧ totalMass b.particles ≠ 0) →
      1 < horizons.length ∧ totalMass horizons ≠ 0 →
      Act.exited ∉ (runMain argv horizons stepFn fuel fs).actions ∧
      Act.armedArchive (filename n) archiveStep true ∈
        (runMain argv horizons stepFn fuel fs).actions ∧
      (∃ base, 1 < base.particles.length ∧ totalMass base.particles ≠ 0 ∧
        (runMain argv horizons stepFn fuel fs).simStart =
          some (setupFresh n base)) ∧
      fsLookup ((runMain argv horizons stepFn 0 fs).fs) (filename n) = none := by
  intro argv horizons stepFn fuel fs n snaps hp hcorrupt hss2 hhor
  have hload : loadSimulation fs (filename n) = none := by
    simp [loadSimulation, hcorrupt]
  cases hss : loadSimulation fs "ss.bin" with
  | some b =>
    simp only [runMain, hp, hload, hss]
    refine ⟨?_, ?_, ⟨b, (hss2 b hss).1, (hss2 b hss).2, rfl⟩, ?_⟩
    · cases hstop : (integrateLoop stepFn fuel (setupFresh n b)
        (fsDelete fs (filename n))).stopped <;> simp [hstop]
    · simp
      exact Or.inl rfl
    · simp only [integrateLoop]
      exact fsLookup_fsDelete fs (filename n)
  | none =>
    simp only [runMain, hp, hload, hss]
    refine ⟨?_, ?_, ⟨defaultSim horizons, hhor.1, hhor.2, rfl⟩, ?_⟩
    · cases hstop : (integrateLoop stepFn fuel (setupFresh n (defaultSim horizons))
        (fsDelete (appendSnap fs "ss.bin" (defaultSim horizons)) (filename n))).stopped <;>
        simp [hstop]
    · simp
      exact Or.inl rfl
    · simp only [integrateLoop]
      exact fsLookup_fsDelete (appendSnap fs "ss.bin" (defaultSim horizons)) (filename n)

/-- C2 (counterexample to the claim as stated): with a corrupt checkpoint
file for run 3 (still holding one valid snapshot) beside a valid two-body
nonzero-mass ss.bin — an input on which every step of the fresh path of
`run.py` is well-defined — the program neither treats the situation as
fatal nor preserves the most recent valid entry: it does not exit,
proceeds to set up a freshly perturbed simulation from that base, re-arms
the archive with deletefile=True, and the file that held the valid
snapshot is gone. -/
theorem corrupt_checkpoint_not_fatal :
    fsLookup fsCorrupt (filename 3) = some (FileContent.corruptTail [wSnap]) ∧
    loadSimulation fsCorrupt "ss.bin" = some wBase ∧
    (1 < wBase.particles.length ∧ totalMass wBase.particles ≠ 0) ∧
    Act.exited ∉ (runMain ["run.py", "3"] [wSun, wMercury] id 0 fsCorrupt).actions ∧
    (runMain ["run.py", "3"] [wSun, wMercury] id 0 fsCorrupt).simStart =
      some (setupFresh 3 wBase) ∧
    Act.armedArchive (filename 3) archiveStep true ∈
      (runMain ["run.py", "3"] [wSun, wMercury] id 0 fsCorrupt).actions ∧
    fsLookup ((runMain ["run.py", "3"] [wSun, wMercury] id 0 fsCorrupt).fs)
      (filename 3) = none := by
  refine ⟨rfl, rfl, ⟨by decide, ?_⟩, ?_, rfl, ?_, ?_⟩
  · show totalMass [wSun, wMercury] ≠ 0
    norm_num [totalMass, wSun, wMercury]
  · decide
  · decide
  · decide

/-- C1: for every valid pair of step counts — k a positive step count at
which a checkpoint is actually written (the armed cadence divides the step
counter there and no stop event occurred before it) and any m — resuming
from the checkpoint written after step k by constructing the simulation
from the archive file and re-arming the same cadence, exactly as the
restart branch of `run.py` does, and continuing to step k+m produces a
StateVector bit-identical to the state an uninterrupted run has at step
k+m (and when no stop event fires, that state is the (k+m)-th iterate of
the stepper, the spec-side `uninterruptedState`). -/
theorem resume_bit_identical :
    ∀ (stepFn : List Particle → List Particle) (fname : String) (k m : ℕ)
      (s : SimState) (fs : Filesystem),
      s.archiveFilename = some fname →
      s.archiveCadence = archiveStep →
      s.dt = DtVal.whckldt →
      archiveStep ∣ (s.stepsDone + k) →
      0 < k →
      (integrateLoop stepFn k s fs).stopped = none →
      resumedRun stepFn fname k m s fs =
        some ((integrateLoop stepFn (k + m) s fs).sim) ∧
      ((integrateLoop stepFn (k + m) s fs).stopped = none →
        (integrateLoop stepFn (k + m) s fs).sim =
          uninterruptedState stepFn s (k + m)) := by
  intro stepFn fname k m s fs hn hcad hdt hdvd hk hstop
  have hc : s.archiveCadence ≠ 0 := by rw [hcad]; decide
  have hdvd2 : s.archiveCadence ∣ (s.stepsDone + k) := by rw [hcad]; exact hdvd
  have hload := loadSim_after_run stepFn k s fs fname hn hc hdvd2 hk hstop
  have hconf := integrateLoop_config stepFn k s fs
  have hself : setupResume fname (integrateLoop stepFn k s fs).sim =
      (integrateLoop stepFn k s fs).sim := by
    apply setupResume_eq_self
    · rw [hconf.2.2.2.2.2.2.1, hconf.2.1, hdt, hcad]
    · rw [hconf.2.2.2.2.2.2.2, hn]
  constructor
  · simp only [resumedRun]
    rw [hload]
    simp only [Option.map_some']
    rw [hself]
    rw [integrateLoop_add stepFn k m s fs hstop]
  · intro hnone
    exact integrateLoop_sim_of_none stepFn (k + m) s fs hnone

theorem resume_bit_identical_witness :
    (wEmptyState.archiveFilename = some "f") ∧
    (wEmptyState.archiveCadence = archiveStep) ∧
    (wEmptyState.dt = DtVal.whckldt) ∧
    (archiveStep ∣ (wEmptyState.stepsDone + archiveStep)) ∧
    (0 < archiveStep) ∧
    ((integrateLoop id archiveStep wEmptyState []).stopped = none) ∧
    resumedRun id "f" archiveStep 1 wEmptyState [] =
      some ((integrateLoop id (archiveStep + 1) wEmptyState []).sim) := by
  have hstop : (integrateLoop id archiveStep wEmptyState []).stopped = none :=
    (integrateLoop_nil_particles id archiveStep wEmptyState [] rfl rfl).1
  have hdvd : archiveStep ∣ (wEmptyState.stepsDone + archiveStep) := by
    show archiveStep ∣ (0 + archiveStep)
    rw [Nat.zero_add]
  exact ⟨rfl, rfl, rfl, hdvd, by decide, hstop,
    (resume_bit_identical id "f" archiveStep 1 wEmptyState []
      rfl rfl rfl hdvd (by decide) hstop).1⟩

/-- C3: checkpoints are written exactly when the integrator step counter is
a multiple of the armed cadence int(1e4*2*pi/dt) — the write test consults
only the integer step counter, never wall-clock or simulation time — and
this holds uniformly across process restarts: a run writes a checkpoint at
step j iff j is a past-start, within-run multiple of the cadence; the
restart branch re-arms the cadence recomputed from the restored dt while
keeping the restored step counter and particles; the fresh branch arms the
same cadence value; and across any schedule of restarts every checkpoint
written lands on a multiple of that cadence. -/
theorem checkpoint_cadence_steps :
    (∀ (stepFn : List Particle → List Particle) (fuel : ℕ) (s : SimState)
       (fs : Filesystem) (fname : String),
       s.archiveFilename = some fname → s.archiveCadence ≠ 0 →
       ∀ j, j ∈ (integrateLoop stepFn fuel s fs).writes ↔
         (s.stepsDone < j ∧ j ≤ ((integrateLoop stepFn fuel s fs).sim).stepsDone ∧
           s.archiveCadence ∣ j)) ∧
    (∀ (fname : String) (s0 : SimState),
       (setupResume fname s0).archiveCadence = cadenceOf s0.dt ∧
       (setupResume fname s0).stepsDone = s0.stepsDone ∧
       (setupResume fname s0).particles = s0.particles) ∧
    (∀ (n : ℤ) (base : SimState), (setupFresh n base).archiveCadence = archiveStep) ∧
    (∀ (stepFn : List Particle → List Particle) (fname : String) (ms : List ℕ)
       (s : SimState) (fs : Filesystem),
       s.archiveFilename = some fname → s.archiveCadence = archiveStep →
       s.dt = DtVal.whckldt →
       (∀ t, loadSimulation fs fname = some t → t.dt = DtVal.whckldt) →
       ∀ j, j ∈ (restartRun stepFn fname ms s fs).2.2 → archiveStep ∣ j) := by
  refine ⟨integrateLoop_writes_iff, fun fname s0 => ⟨rfl, rfl, rfl⟩,
    fun n base => rfl, ?_⟩
  intro stepFn fname ms
  induction ms with
  | nil => intro s fs _ _ _ _ j hj; simp [restartRun] at hj
  | cons f rest ih =>
    intro s fs hn hcad hdt hinv j hj
    simp only [restartRun] at hj
    have hsound := integrateLoop_writes_sound stepFn f s fs
    have hinv2 := loadSim_dt_invariant stepFn f s fs fname hn hdt hinv
    cases hload : loadSimulation (integrateLoop stepFn f s fs).fs fname with
    | some s0 =>
      rw [hload] at hj
      simp only [] at hj
      rcases List.mem_append.mp hj with hj1 | hj2
      · have := hsound j hj1
        rw [hcad] at this
        exact this.2
      · have hs0dt : s0.dt = DtVal.whckldt := hinv2 s0 hload
        refine ih (setupResume fname s0) (integrateLoop stepFn f s fs).fs
          rfl ?_ ?_ hinv2 j hj2
        · show cadenceOf s0.dt = archiveStep
          rw [hs0dt]
        · exact hs0dt
    | none =>
      rw [hload] at hj
      simp only [] at hj
      have := hsound j hj
      rw [hcad] at this
      exact this.2

theorem checkpoint_cadence_steps_witness :
    ((wEmptyState.archiveFilename = some "f") ∧ (wEmptyState.archiveCadence ≠ 0) ∧
      ((archiveStep : ℕ) ∈ (integrateLoop id archiveStep wEmptyState []).writes ↔
        (wEmptyState.stepsDone < archiveStep ∧
          archiveStep ≤ ((integrateLoop id archiveStep wEmptyState []).sim).stepsDone ∧
          wEmptyState.archiveCadence ∣ archiveStep))) ∧
    ((∀ t, loadSimulation [] "f" = some t → t.dt = DtVal.whckldt) ∧
      ∀ j, j ∈ (restartRun id "f" [1, 1] wEmptyState []).2.2 → archiveStep ∣ j) := by
  have hinv : ∀ t, loadSimulation [] "f" = some t → t.dt = DtVal.whckldt :=
    fun t h => Option.noConfusion h
  exact ⟨⟨rfl, by decide,
      checkpoint_cadence_steps.1 id archiveStep wEmptyState [] "f" rfl
        (by decide) archiveStep⟩,
    ⟨hinv, checkpoint_cadence_steps.2.2.2 id "f" [1, 1] wEmptyState [] rfl rfl rfl hinv⟩⟩

theorem corrupt_checkpoint_fresh_restart_witness :
    ((["run.py", "3"] : List String).get? 1 >>= pyInt? = some 3) ∧
    (fsLookup fsCorrupt (filename 3) = some (FileContent.corruptTail [wSnap])) ∧
    (∀ b, loadSimulation fsCorrupt "ss.bin" = some b →
      1 < b.particles.length ∧ totalMass b.particles ≠ 0) ∧
    (1 < ([wSun, wMercury] : List Particle).length ∧
      totalMass [wSun, wMercury] ≠ 0) ∧
    (Act.exited ∉
      (runMain ["run.py", "3"] [wSun, wMercury] id 2 fsCorrupt).actions ∧
     Act.armedArchive (filename 3) archiveStep true ∈
       (runMain ["run.py", "3"] [wSun, wMercury] id 2 fsCorrupt).actions ∧
     (∃ base, 1 < base.particles.length ∧ totalMass base.particles ≠ 0 ∧
       (runMain ["run.py", "3"] [wSun, wMercury] id 2 fsCorrupt).simStart =
         some (setupFresh 3 base)) ∧
     fsLookup ((runMain ["run.py", "3"] [wSun, wMercury] id 0 fsCorrupt).fs)
       (filename 3) = none) := by
  have hmass : totalMass ([wSun, wMercury] : List Particle) ≠ 0 := by
    norm_num [totalMass, wSun, wMercury]
  have hss2 : ∀ b, loadSimulation fsCorrupt "ss.bin" = some b →
      1 < b.particles.length ∧ totalMass b.particles ≠ 0 := by
    intro b h
    have hl : loadSimulation fsCorrupt "ss.bin" = some wBase := rfl
    rw [hl] at h
    obtain rfl := Option.some.inj h
    exact ⟨by decide, hmass⟩
  exact ⟨rfl, rfl, hss2, ⟨by decide, hmass⟩,
    corrupt_checkpoint_fresh_restart ["run.py", "3"] [wSun, wMercury] id 2
      fsCorrupt 3 [wSnap] rfl rfl hss2 ⟨by decide, hmass⟩⟩
